import Mathlib

/- Verification of the video-memory allocator and buffer-pool / renegotiation
   control logic of the gst-fbdev2-plugins repository.

   The model is a shallow embedding of `src/gstframebuffersink.c`:
   the video-memory allocator (`gst_framebuffersink_video_memory_alloc` /
   `gst_framebuffersink_video_memory_free`, lines 2428-2547), the
   `ALIGNMENT_GET_ALIGN_BYTES` macro (line 102), and the relevant slices of
   `gst_framebuffersink_set_caps` (early-equal-caps return, the `reconfigure:`
   label and its buffer-pool retry logic, and the screen/overlay batch
   allocation loops).

   Machine-integer conventions: `gsize` / `guintptr` are 64-bit unsigned on the
   target platform.  The `gsize` computations whose wrap-around can change the
   allocator's accept/reject decisions on representable states are modelled
   with an explicit `% 2^64`: the gap-size subtraction
   `entry->framebuffer_address - gap_start` (line 2459, which wraps when a
   zero-size allocation has put the chain out of order), the gap-fit sum
   `align_bytes + size` (line 2460), and the bump-check sum
   `end_marker + align_bytes + size` (line 2444, which wraps for arenas close
   to 2^64 bytes).  The remaining sums (offsets such as
   `end_marker + align_bytes` and `gap_start + align_bytes`, the
   `total_allocated` accounting, and the previous-entry end in free) are kept
   exact: on every state within the hypotheses of the theorems below they stay
   under 2^64, where exact and wrapped values coincide.  Chain entries store
   arena-relative offsets; the C code stores absolute addresses
   `framebuffer + offset`, and the base pointer cancels in every comparison
   and difference the code performs. -/

namespace GstFramebufferSink

/-- Width of `gsize` / `guintptr` on the target platform: 2^64. -/
def wordSize : Nat := 2 ^ 64

/-- The C macro (line 102):
    `#define ALIGNMENT_GET_ALIGN_BYTES(offset, align)
       (((align) + 1 - ((offset) & (align))) & (align))`. -/
def ALIGNMENT_GET_ALIGN_BYTES (offset align : Nat) : Nat :=
  (align + 1 - (offset &&& align)) &&& align

/-- The C macro (line 104): `((offset) + ALIGNMENT_GET_ALIGN_BYTES(offset, align))`. -/
def ALIGNMENT_GET_ALIGNED (offset align : Nat) : Nat :=
  offset + ALIGNMENT_GET_ALIGN_BYTES offset align

/-- One record of the allocator's region chain (C struct `ChainEntry`,
    line 2423): an allocated sub-range of the arena.  `offset` is the
    arena-relative address (`framebuffer_address - framebuffer`). -/
structure ChainEntry where
  offset : Nat
  size : Nat
deriving DecidableEq

/-- End of a region: `framebuffer_address + size`, arena-relative. -/
def entryEnd (e : ChainEntry) : Nat := e.offset + e.size

/-- State of `GstFramebufferSinkVideoMemoryAllocator` (line 2370):
    the fields mutated by alloc/free. -/
structure AllocState where
  framebuffer_size : Nat
  end_marker : Nat
  total_allocated : Nat
  chain : List ChainEntry
deriving DecidableEq

/-- `gst_framebuffersink_video_memory_init` (line 2413): fresh arena. -/
def gst_framebuffersink_video_memory_init (framebuffer_size : Nat) : AllocState :=
  { framebuffer_size := framebuffer_size
    end_marker := 0
    total_allocated := 0
    chain := [] }

/-- The chain-scanning loop of `gst_framebuffersink_video_memory_alloc`
    (lines 2444-2466).  `gapStart` is the arena-relative start of the gap
    before the head entry (the C code's `gap_start - framebuffer`; `0` for the
    first entry, `previous_entry->framebuffer_address + previous_entry->size`
    afterwards).  `gap_size = entry->framebuffer_address - gap_start` is a
    `gsize` subtraction and therefore wraps modulo 2^64 when
    `gap_start > entry->framebuffer_address`, and the fit test compares it
    against the `gsize` sum `align_bytes + size`, which wraps for
    `size >= 2^64 - align_bytes`; returning `none` corresponds to falling
    off the end of the chain (out of video memory). -/
def findGap : List ChainEntry → Nat → Nat → Nat → Option Nat
  | [], _, _, _ => none
  | e :: rest, gapStart, size, align =>
    let gapSize := (e.offset + wordSize - gapStart) % wordSize
    let alignBytes := ALIGNMENT_GET_ALIGN_BYTES gapStart align
    if (alignBytes + size) % wordSize ≤ gapSize then some (gapStart + alignBytes)
    else findGap rest (e.offset + e.size) size align

/-- The sorted-insert loop of `gst_framebuffersink_video_memory_alloc`
    (lines 2484-2500): insert the new entry before the first entry whose
    address is greater. -/
def insertChain : List ChainEntry → ChainEntry → List ChainEntry
  | [], e => [e]
  | x :: xs, e => if e.offset < x.offset then e :: x :: xs else x :: insertChain xs e

/-- The mutation block shared by both successful paths of
    `gst_framebuffersink_video_memory_alloc` (lines 2475-2500): advance
    `end_marker` when the new region ends beyond it, add the size to
    `total_allocated`, and insert the new entry into the sorted chain. -/
def commitAlloc (s : AllocState) (off size : Nat) : AllocState :=
  { s with
    end_marker := if s.end_marker < off + size then off + size else s.end_marker
    total_allocated := s.total_allocated + size
    chain := insertChain s.chain ⟨off, size⟩ }

/-- `gst_framebuffersink_video_memory_alloc` (lines 2428-2508).  Returns the
    arena-relative offset of the allocated region (`none` on out-of-memory,
    where the C code logs "Out of video memory" and returns NULL) together
    with the allocator state after the call; the out-of-memory return happens
    before any mutation, so the input state is returned unchanged there.
    The bump check on line 2444 compares the `gsize` sum
    `end_marker + align_bytes + size`, which wraps modulo 2^64 for requests
    or arenas close to 2^64 bytes. -/
def gst_framebuffersink_video_memory_alloc (s : AllocState) (size align : Nat) :
    Option Nat × AllocState :=
  let alignBytes := ALIGNMENT_GET_ALIGN_BYTES s.end_marker align
  let offRes : Option Nat :=
    if s.framebuffer_size < (s.end_marker + alignBytes + size) % wordSize then
      findGap s.chain 0 size align
    else some (s.end_marker + alignBytes)
  match offRes with
  | none => (none, s)
  | some off => (some off, commitAlloc s off size)

/-- End of the previous entry, or `0` when there is none (the `end_marker`
    retraction of `gst_framebuffersink_video_memory_free`, lines 2524-2532). -/
def optEnd : Option ChainEntry → Nat
  | none => 0
  | some e => entryEnd e

/-- The search-and-delete loop of `gst_framebuffersink_video_memory_free`
    (lines 2519-2540): find the first entry matching the freed region's
    address and size; if it is the last entry, retract `end_marker` to the
    previous entry's end (or 0 when it was the only entry), otherwise leave
    `end_marker` (`em`) unchanged.  `none` means no entry matched. -/
def freeLoop (addr size : Nat) :
    Option ChainEntry → List ChainEntry → Nat → Option (List ChainEntry × Nat)
  | _, [], _ => none
  | prevE, e :: rest, em =>
    if e.offset = addr ∧ e.size = size then
      some (rest, if rest = [] then optEnd prevE else em)
    else
      match freeLoop addr size (some e) rest em with
      | none => none
      | some (c2, em2) => some (e :: c2, em2)

/-- `gst_framebuffersink_video_memory_free` (lines 2510-2547).  The `Bool`
    records whether a matching entry was found; `false` is the path where the
    C code logs "video_memory_free failed" after the loop, having changed
    nothing. -/
def gst_framebuffersink_video_memory_free (s : AllocState) (addr size : Nat) :
    Bool × AllocState :=
  match freeLoop addr size none s.chain s.end_marker with
  | none => (false, s)
  | some (c2, em2) =>
    (true, { s with
             chain := c2
             end_marker := em2
             total_allocated := s.total_allocated - size })

/-- `gst_framebuffersink_video_memory_get_available` (line 2555). -/
def gst_framebuffersink_video_memory_get_available (s : AllocState) : Nat :=
  s.framebuffer_size - s.total_allocated

/-- An allocator call, for reasoning about alloc/free call sequences. -/
inductive Op where
  | alloc (size align : Nat)
  | free (addr size : Nat)
deriving DecidableEq

/-- Effect of one call on the allocator state. -/
def step (s : AllocState) : Op → AllocState
  | .alloc size align => (gst_framebuffersink_video_memory_alloc s size align).2
  | .free addr size => (gst_framebuffersink_video_memory_free s addr size).2

/-- Effect of a call sequence. -/
def exec (s : AllocState) (ops : List Op) : AllocState := ops.foldl step s

/-! Invariants and claim-level properties of the allocator. -/

/-- End of the last (highest-address) entry of the chain, or 0 when empty. -/
def chainEnd (c : List ChainEntry) : Nat := optEnd c.getLast?

/-- The chain is sorted by address with non-overlapping entries:
    each entry ends at or before the next entry's start. -/
def ChainSep (c : List ChainEntry) : Prop :=
  c.Pairwise fun a b => entryEnd a ≤ b.offset

/-- Internal well-formedness of the allocator state: separated sorted chain,
    every region inside the arena, `end_marker` equal to the end of the
    highest-address region, `total_allocated` equal to the sum of live sizes,
    and an arena that fits in a `gsize`. -/
structure Inv (s : AllocState) : Prop where
  sep : ChainSep s.chain
  bounds : ∀ e ∈ s.chain, entryEnd e ≤ s.framebuffer_size
  marker : s.end_marker = chainEnd s.chain
  total : s.total_allocated = (s.chain.map ChainEntry.size).sum
  fb_lt : s.framebuffer_size < wordSize

/-- The two regions, read as half-open intervals, do not overlap. -/
def RegionsDisjoint (a b : ChainEntry) : Prop :=
  a.size = 0 ∨ b.size = 0 ∨ entryEnd a ≤ b.offset ∨ entryEnd b ≤ a.offset

/-- The conjunction of properties asserted by the allocator-invariant claim:
    live regions pairwise non-overlapping, each lying inside
    `[0, framebuffer_size)`, and the chain sorted by increasing address. -/
def ChainOk (s : AllocState) : Prop :=
  (s.chain.Pairwise fun a b => RegionsDisjoint a b ∧ a.offset ≤ b.offset) ∧
    ∀ e ∈ s.chain, e.size = 0 ∨ entryEnd e ≤ s.framebuffer_size

instance (a b : ChainEntry) : Decidable (RegionsDisjoint a b) := by
  unfold RegionsDisjoint
  infer_instance

instance (s : AllocState) : Decidable (ChainOk s) := by
  unfold ChainOk
  infer_instance

instance (c : List ChainEntry) : Decidable (ChainSep c) := by
  unfold ChainSep
  infer_instance

instance (s : AllocState) : Decidable (Inv s) :=
  decidable_of_iff
    (ChainSep s.chain ∧ (∀ e ∈ s.chain, entryEnd e ≤ s.framebuffer_size) ∧
      s.end_marker = chainEnd s.chain ∧
      s.total_allocated = (s.chain.map ChainEntry.size).sum ∧
      s.framebuffer_size < wordSize)
    ⟨fun h => ⟨h.1, h.2.1, h.2.2.1, h.2.2.2.1, h.2.2.2.2⟩,
     fun h => ⟨h.sep, h.bounds, h.marker, h.total, h.fb_lt⟩⟩

/-- The call cannot overflow the `gsize` bump sum
    `end_marker + align_bytes + size` of an arena of size `fb`: automatic for
    any physical arena and `int` alignment. -/
def opNoWrap (fb : Nat) : Op → Bool
  | .alloc size align => decide (fb + align + size < wordSize)
  | .free _ _ => true

/-- Every allocation request of the sequence stays below the `gsize`
    overflow threshold of the arena. -/
def allNoWrap (fb : Nat) (ops : List Op) : Bool := ops.all (opNoWrap fb)

/-- The call is not a zero-size allocation request. -/
def opPositive : Op → Bool
  | .alloc size _ => decide (0 < size)
  | .free _ _ => true

/-- Every allocation request in the sequence has positive size. -/
def allPositive (ops : List Op) : Bool := ops.all opPositive

/-- No allocation request in the sequence exceeds the arena capacity remaining
    for concurrently-live regions at the moment of the request. -/
def capacityOk (s : AllocState) : List Op → Bool
  | [] => true
  | op :: rest =>
    (match op with
     | Op.alloc size _ =>
       decide (size ≤ gst_framebuffersink_video_memory_get_available s)
     | Op.free _ _ => true) && capacityOk (step s op) rest

/-- The region `[off, off + size)` fits the state: it is inside the arena and
    every live entry lies entirely at or before `off`, or entirely at or after
    `off + size`. -/
def FitsAt (s : AllocState) (off size : Nat) : Prop :=
  off + size ≤ s.framebuffer_size ∧
    ∀ e ∈ s.chain, (e.offset ≤ off ∧ entryEnd e ≤ off) ∨ off + size ≤ e.offset

/-- End of the last entry of the list, with default `d` for the empty list. -/
def lastEndD (d : Nat) (c : List ChainEntry) : Nat :=
  match c.getLast? with
  | some p => entryEnd p
  | none => d

/-- End of the region area already consumed by a scan that continues with
    suffix `c` after gap start `g`: the end of the last entry overall, or `g`
    when the suffix is empty. -/
def tailEnd (c : List ChainEntry) (g : Nat) : Nat :=
  match c with
  | [] => g
  | _ => chainEnd c

/-- Modelled from the spec (§4.1): "rounded up to alignment" for an alignment
    expressed as a bitmask `align` (alignment = `align + 1`): the least
    multiple of `align + 1` that is at least `offset`. -/
def specRoundUp (offset align : Nat) : Nat :=
  ((offset + align) / (align + 1)) * (align + 1)

/-- Modelled from the spec (§4.1): "scan the Region Chain in address order,
    computing the gap before each region (and the final gap at EOF) rounded up
    to alignment, and accept the first gap that fits". -/
def specScanGaps (fb size align : Nat) : List ChainEntry → Nat → Option Nat
  | [], gapStart =>
    if specRoundUp gapStart align + size ≤ fb then some (specRoundUp gapStart align)
    else none
  | e :: rest, gapStart =>
    if specRoundUp gapStart align + size ≤ e.offset then some (specRoundUp gapStart align)
    else specScanGaps fb size align rest (entryEnd e)

/-- Modelled from the spec (§4.1 Algorithm): "compute `candidate = end_marker`
    rounded up to alignment; if `candidate + size <= arena.length`, accept
    (bump allocation).  Otherwise scan the Region Chain ...  If no such gap
    exists, fail with `OUT_OF_MEMORY`."  Used only to compare the described
    algorithm with the implementation. -/
def specAlloc (s : AllocState) (size align : Nat) : Option Nat :=
  if specRoundUp s.end_marker align + size ≤ s.framebuffer_size then
    some (specRoundUp s.end_marker align)
  else specScanGaps s.framebuffer_size size align s.chain 0

/-- The batch-allocation loop used by `gst_framebuffersink_set_caps` for
    page-flip screens (lines 1716-1724: `screens[i] =
    gst_framebuffersink_video_memory_alloc (...)`, stopping at the first
    failure with `nu_framebuffers_used = i`) and for overlays (lines
    1748-1755, with `nu_overlays_used = i`).  Returns the allocator state
    after the loop together with the offsets of the buffers that were
    allocated; the list length is the truncated buffer count. -/
def allocBuffers (a : AllocState) (size align : Nat) : Nat → AllocState × List Nat
  | 0 => (a, [])
  | n + 1 =>
    match gst_framebuffersink_video_memory_alloc a size align with
    | (none, a2) => (a2, [])
    | (some off, a2) =>
      let r := allocBuffers a2 size align n
      (r.1, off :: r.2)

/-- The sink state visible to the head of `gst_framebuffersink_set_caps`:
    the currently configured video info (`framebuffersink->info`, compared
    with `gst_video_info_is_equal`, abstracted to a token with decidable
    equality), the video-memory allocator, and the current buffer pool. -/
structure SinkState where
  info : Nat
  vmem : AllocState
  pool : Option Nat
deriving DecidableEq

/-- Outcome of the head of `gst_framebuffersink_set_caps` (lines 1513-1520):
    either the function returns (with the unchanged state and its gboolean
    result), or it proceeds into the renegotiation body with the parsed video
    info. -/
inductive SetCapsOutcome where
  | ret (st : SinkState) (ok : Bool)
  | proceed (st : SinkState) (parsed : Nat)
deriving DecidableEq

/-- Head of `gst_framebuffersink_set_caps` (lines 1513-1520): parse the caps
    (`gst_video_info_from_caps`; failure jumps to `invalid_format`, returning
    FALSE), then return TRUE immediately when the parsed info equals the
    currently configured info ("set_caps called with same caps"). -/
def set_caps_head (st : SinkState) (caps : Option Nat) : SetCapsOutcome :=
  match caps with
  | none => .ret st false
  | some info => if info = st.info then .ret st true else .proceed st info

/-- The sink fields read and written by the `reconfigure:` section of
    `gst_framebuffersink_set_caps` (lines 1662-1712).  `width_ok` abstracts
    `framebuffer_video_width_in_bytes == fixinfo.line_length`; `aggressive`
    abstracts `max_video_memory_property == -2`. -/
structure ReconfigState where
  use_buffer_pool : Bool
  width_ok : Bool
  max_framebuffers : Nat
  flip_buffers : Nat
  aggressive : Bool
  nu_framebuffers_used : Nat
deriving DecidableEq

/-- Lines 1664-1678: inside `if (use_buffer_pool)`, disable buffer-pool mode
    when the video width does not match the framebuffer width and when fewer
    than two framebuffers are available. -/
def reconfigureChecks (st : ReconfigState) : ReconfigState :=
  { st with use_buffer_pool :=
      st.use_buffer_pool && st.width_ok && decide (2 ≤ st.max_framebuffers) }

/-- Lines 1679-1696: when at least two framebuffers fit, use them all, capped
    at 10 in buffer-pool mode (unless `flip_buffers` is set or aggressive
    memory use is requested) and at 3 in non-pool page-flip mode. -/
def computeNu (st : ReconfigState) : ReconfigState :=
  if 2 ≤ st.max_framebuffers then
    { st with nu_framebuffers_used :=
        if st.use_buffer_pool then
          if st.flip_buffers = 0 ∧ 10 < st.max_framebuffers ∧ ¬st.aggressive then 10
          else st.max_framebuffers
        else
          if st.flip_buffers = 0 ∧ 3 < st.max_framebuffers then 3
          else st.max_framebuffers }
  else st

/-- Outcome of the `reconfigure:` section: buffer-pool mode with a built pool,
    or fall-through to the non-pool `success:` label.  `attempts` records the
    buffer counts passed to `gst_framebuffersink_allocate_buffer_pool`, in
    order. -/
inductive ReconfigResult where
  | poolMode (st : ReconfigState) (attempts : List Nat)
  | nonPoolMode (st : ReconfigState) (attempts : List Nat)
deriving DecidableEq

/-- The `reconfigure:` section of `gst_framebuffersink_set_caps` (lines
    1662-1712).  `buildOk n` abstracts whether
    `gst_framebuffersink_allocate_buffer_pool` succeeds for a pool of `n`
    buffers.  On build failure the code sets `use_buffer_pool = FALSE` and
    jumps back to `reconfigure:`; that second pass is unrolled here — with
    `use_buffer_pool` false it performs no further build attempt and falls
    through to the non-pool path. -/
def reconfigure (buildOk : Nat → Bool) (st : ReconfigState) : ReconfigResult :=
  let st1 := computeNu (reconfigureChecks st)
  if st1.use_buffer_pool then
    if buildOk st1.nu_framebuffers_used then
      .poolMode st1 [st1.nu_framebuffers_used]
    else
      .nonPoolMode (computeNu (reconfigureChecks { st1 with use_buffer_pool := false }))
        [st1.nu_framebuffers_used]
  else .nonPoolMode st1 []

/-- The proposition asserted by the renegotiation-retry claim: whenever the
    `reconfigure:` section ends without a pool after a failed build at the
    computed count `n` with `n - 1 ≥ 2`, a retry at the next-smaller count
    `n - 1` was attempted. -/
def RetriesNextSmaller : Prop :=
  ∀ (buildOk : Nat → Bool) (st stres : ReconfigState) (n : Nat) (rest : List Nat),
    reconfigure buildOk st = .nonPoolMode stres (n :: rest) →
    buildOk n = false → 3 ≤ n → (n - 1) ∈ n :: rest

/-! Arithmetic facts about the alignment macro. -/

theorem agb_le (offset align : Nat) :
    ALIGNMENT_GET_ALIGN_BYTES offset align ≤ align :=
  Nat.and_le_right

/-- For a power-of-two alignment mask, the macro yields the distance from
    `offset` up to the next multiple of the alignment. -/
theorem agb_pow2 (offset k : Nat) :
    ALIGNMENT_GET_ALIGN_BYTES offset (2 ^ k - 1) =
      (2 ^ k - offset % 2 ^ k) % 2 ^ k := by
  have hpos : 0 < 2 ^ k := Nat.pos_pow_of_pos k (by decide)
  unfold ALIGNMENT_GET_ALIGN_BYTES
  rw [Nat.and_pow_two_sub_one_eq_mod, Nat.and_pow_two_sub_one_eq_mod]
  congr 1
  omega

/-- Rounding up with the macro lands on a multiple of the alignment. -/
theorem aligned_mod (offset k : Nat) :
    (offset + ALIGNMENT_GET_ALIGN_BYTES offset (2 ^ k - 1)) % 2 ^ k = 0 := by
  have hpos : 0 < 2 ^ k := Nat.pos_pow_of_pos k (by decide)
  have hlt : offset % 2 ^ k < 2 ^ k := Nat.mod_lt _ hpos
  rw [agb_pow2]
  rcases Nat.eq_zero_or_pos (offset % 2 ^ k) with h0 | h0
  · simp [h0, Nat.mod_self, Nat.add_mod, h0.symm ▸ h0]
  · have h1 : (2 ^ k - offset % 2 ^ k) % 2 ^ k = 2 ^ k - offset % 2 ^ k :=
      Nat.mod_eq_of_lt (by omega)
    have hdm := Nat.div_add_mod offset (2 ^ k)
    have h3 : offset + (2 ^ k - offset % 2 ^ k) = 2 ^ k * (offset / 2 ^ k + 1) := by
      rw [Nat.mul_add, Nat.mul_one]; omega
    rw [h1, h3, Nat.mul_mod_right]

/-- The `gsize` subtraction in the gap scan, evaluated when it does not wrap. -/
theorem wsub_eq {a b : Nat} (hba : b ≤ a) (ha : a < wordSize) :
    (a + wordSize - b) % wordSize = a - b := by
  have h1 : a + wordSize - b = wordSize + (a - b) := by omega
  rw [h1, Nat.add_mod_left, Nat.mod_eq_of_lt (by omega)]

/-! Facts about `chainEnd` and separated chains. -/

theorem chainEnd_nil : chainEnd [] = 0 := rfl

theorem chainEnd_cons {b : ChainEntry} {l : List ChainEntry} (a : ChainEntry) :
    chainEnd (a :: b :: l) = chainEnd (b :: l) := by
  simp [chainEnd]

theorem chainEnd_concat (c : List ChainEntry) (e : ChainEntry) :
    chainEnd (c ++ [e]) = entryEnd e := by
  simp [chainEnd, List.getLast?_concat, optEnd]

theorem chainEnd_cons_of_ne_nil {l : List ChainEntry} (a : ChainEntry) (h : l ≠ []) :
    chainEnd (a :: l) = chainEnd l := by
  cases l with
  | nil => exact absurd rfl h
  | cons b t => exact chainEnd_cons a

/-- In a separated chain, every entry ends at or before the last entry's end. -/
theorem le_chainEnd {c : List ChainEntry} (hsep : ChainSep c) :
    ∀ e ∈ c, entryEnd e ≤ chainEnd c := by
  induction c with
  | nil => intro e he; cases he
  | cons a rest ih =>
    intro e he
    cases rest with
    | nil =>
      rcases List.mem_cons.mp he with rfl | he
      · simp [chainEnd, optEnd, List.getLast?]
      · cases he
    | cons b t =>
      rw [chainEnd_cons a]
      rcases List.mem_cons.mp he with rfl | he
      · have h1 : entryEnd e ≤ b.offset := (List.pairwise_cons.mp hsep).1 b (by simp)
        have h2 : entryEnd b ≤ chainEnd (b :: t) :=
          ih (List.pairwise_cons.mp hsep).2 b (by simp)
        have h3 : b.offset ≤ entryEnd b := Nat.le_add_right _ _
        omega
      · exact ih (List.pairwise_cons.mp hsep).2 e he

/-- The chain's high-water mark is bounded by the arena when every entry is. -/
theorem chainEnd_le {c : List ChainEntry} {fb : Nat}
    (hb : ∀ e ∈ c, entryEnd e ≤ fb) : chainEnd c ≤ fb := by
  cases c with
  | nil => exact Nat.zero_le fb
  | cons a t =>
    show optEnd (a :: t).getLast? ≤ fb
    rw [List.getLast?_eq_getLast (a :: t) (by simp)]
    exact hb _ (List.getLast_mem _)

/-! Facts about `insertChain`. -/

theorem insertChain_ne_nil (c : List ChainEntry) (e : ChainEntry) :
    insertChain c e ≠ [] := by
  cases c with
  | nil => simp [insertChain]
  | cons x xs =>
    unfold insertChain
    split <;> simp

theorem mem_insertChain {c : List ChainEntry} {e x : ChainEntry} :
    x ∈ insertChain c e ↔ x ∈ c ∨ x = e := by
  induction c with
  | nil => simp [insertChain, eq_comm]
  | cons a rest ih =>
    unfold insertChain
    split
    · simp [eq_comm, or_comm, or_assoc, or_left_comm]
    · simp [ih, or_assoc]

theorem insertChain_sum (c : List ChainEntry) (e : ChainEntry) :
    ((insertChain c e).map ChainEntry.size).sum = (c.map ChainEntry.size).sum + e.size := by
  induction c with
  | nil => simp [insertChain]
  | cons a rest ih =>
    unfold insertChain
    split
    · simp [List.sum_cons]; omega
    · simp [List.sum_cons, ih]; omega

/-- When no existing entry starts strictly after `e`, the insert loop appends. -/
theorem insertChain_append {c : List ChainEntry} {e : ChainEntry}
    (h : ∀ x ∈ c, ¬ e.offset < x.offset) : insertChain c e = c ++ [e] := by
  induction c with
  | nil => rfl
  | cons a rest ih =>
    unfold insertChain
    rw [if_neg (h a (by simp)), ih fun x hx => h x (by simp [hx])]
    rfl

/-- When some existing entry starts strictly after `e`, the insert happens
    strictly before the end, so the last entry is unchanged. -/
theorem insertChain_chainEnd_inside {c : List ChainEntry} {e x : ChainEntry}
    (hx : x ∈ c) (hlt : e.offset < x.offset) :
    chainEnd (insertChain c e) = chainEnd c := by
  induction c with
  | nil => cases hx
  | cons a rest ih =>
    unfold insertChain
    split
    · exact chainEnd_cons_of_ne_nil e (by simp)
    · rename_i hae
      have hxrest : x ∈ rest := by
        rcases List.mem_cons.mp hx with rfl | hx
        · exact absurd hlt hae
        · exact hx
      have hrest : rest ≠ [] := by intro h0; rw [h0] at hxrest; cases hxrest
      rw [chainEnd_cons_of_ne_nil a (insertChain_ne_nil rest e),
        chainEnd_cons_of_ne_nil a hrest]
      exact ih hxrest

/-- Inserting a positive-size region that fits in the free space keeps the
    chain separated and sorted. -/
theorem insertChain_sep {c : List ChainEntry} {e : ChainEntry}
    (hsep : ChainSep c) (hpos : 0 < e.size)
    (hfit : ∀ x ∈ c, (x.offset ≤ e.offset ∧ entryEnd x ≤ e.offset) ∨ entryEnd e ≤ x.offset) :
    ChainSep (insertChain c e) := by
  induction c with
  | nil => simp [insertChain, ChainSep]
  | cons a rest ih =>
    have ha := List.pairwise_cons.mp hsep
    unfold insertChain
    split
    · rename_i hlt
      apply List.pairwise_cons.mpr
      constructor
      · intro y hy
        rcases List.mem_cons.mp hy with rfl | hy
        · rcases hfit y (by simp) with ⟨h1, _⟩ | h2
          · omega
          · exact h2
        · rcases hfit y (by simp [hy]) with ⟨h1, _⟩ | h2
          · have h3 : entryEnd a ≤ y.offset := ha.1 y hy
            have h4 : a.offset ≤ entryEnd a := Nat.le_add_right _ _
            omega
          · exact h2
      · exact hsep
    · rename_i hge
      apply List.pairwise_cons.mpr
      constructor
      · intro y hy
        rcases mem_insertChain.mp hy with hy | rfl
        · exact ha.1 y hy
        · rcases hfit a (by simp) with ⟨_, h1⟩ | h2
          · exact h1
          · unfold entryEnd at h2; omega
      · exact ih ha.2 fun x hx => hfit x (by simp [hx])

/-! Characterisation of a successful allocation. -/

/-- What the gap-scanning loop guarantees on success, provided the chain
    region it scans is separated, within bounds, and starts at or after the
    running gap start. -/
theorem findGap_spec {c : List ChainEntry} {g size align off fb : Nat}
    (hsep : ChainSep c)
    (hg : ∀ e ∈ c, g ≤ e.offset)
    (hb : ∀ e ∈ c, entryEnd e ≤ fb)
    (hfb : fb < wordSize)
    (hnw : align + size < wordSize)
    (h : findGap c g size align = some off) :
    g ≤ off ∧ off + size ≤ fb ∧
      (∃ x, off = x + ALIGNMENT_GET_ALIGN_BYTES x align) ∧
      ∀ e ∈ c, (e.offset ≤ off ∧ entryEnd e ≤ off) ∨ off + size ≤ e.offset := by
  induction c generalizing g with
  | nil => cases h
  | cons e rest ih =>
    have hge : g ≤ e.offset := hg e (by simp)
    have heb : entryEnd e ≤ fb := hb e (by simp)
    have heo : e.offset ≤ entryEnd e := Nat.le_add_right _ _
    unfold findGap at h
    simp only [] at h
    have hab : ALIGNMENT_GET_ALIGN_BYTES g align + size < wordSize :=
      lt_of_le_of_lt (Nat.add_le_add_right (agb_le g align) size) hnw
    rw [wsub_eq hge (by omega), Nat.mod_eq_of_lt hab] at h
    split at h
    · rename_i hfit
      have hoff : off = g + ALIGNMENT_GET_ALIGN_BYTES g align := by
        exact (Option.some.injEq _ _).mp h.symm
      have hfits : off + size ≤ e.offset := by omega
      refine ⟨by omega, by omega, ⟨g, hoff⟩, ?_⟩
      intro x hx
      rcases List.mem_cons.mp hx with rfl | hx
      · exact Or.inr hfits
      · have h2 : entryEnd e ≤ x.offset := (List.pairwise_cons.mp hsep).1 x hx
        exact Or.inr (by omega)
    · have ha := List.pairwise_cons.mp hsep
      have hrec := ih ha.2 (fun x hx => ha.1 x hx) (fun x hx => hb x (by simp [hx])) h
      refine ⟨?_, hrec.2.1, hrec.2.2.1, ?_⟩
      · have : entryEnd e ≤ off := hrec.1
        omega
      · intro x hx
        rcases List.mem_cons.mp hx with rfl | hx
        · exact Or.inl ⟨by have := hrec.1; omega, by have := hrec.1; omega⟩
        · exact hrec.2.2.2 x hx

/-- Unfolding lemma for the allocator body. -/
theorem alloc_cases (s : AllocState) (size align : Nat) :
    gst_framebuffersink_video_memory_alloc s size align =
      match (if s.framebuffer_size <
               (s.end_marker + ALIGNMENT_GET_ALIGN_BYTES s.end_marker align + size) %
                 wordSize then
               findGap s.chain 0 size align
             else some (s.end_marker + ALIGNMENT_GET_ALIGN_BYTES s.end_marker align)) with
      | none => (none, s)
      | some off => (some off, commitAlloc s off size) := rfl

/-- On success, the allocator returns an offset of the round-up form that
    fits the current state. -/
theorem alloc_some_fits {s : AllocState} {size align off : Nat} (hInv : Inv s)
    (hnw : s.framebuffer_size + align + size < wordSize)
    (h : (gst_framebuffersink_video_memory_alloc s size align).1 = some off) :
    FitsAt s off size ∧ ∃ x, off = x + ALIGNMENT_GET_ALIGN_BYTES x align := by
  have hem : s.end_marker ≤ s.framebuffer_size := by
    rw [hInv.marker]
    exact chainEnd_le hInv.bounds
  have hagb := agb_le s.end_marker align
  have hsum : s.end_marker + ALIGNMENT_GET_ALIGN_BYTES s.end_marker align + size <
      wordSize := by omega
  rw [alloc_cases, Nat.mod_eq_of_lt hsum] at h
  by_cases hbump : s.framebuffer_size <
      s.end_marker + ALIGNMENT_GET_ALIGN_BYTES s.end_marker align + size
  · rw [if_pos hbump] at h
    cases hfg : findGap s.chain 0 size align with
    | none => rw [hfg] at h; cases h
    | some o =>
      rw [hfg] at h
      have ho : o = off := by simpa using h
      subst ho
      have hspec := findGap_spec hInv.sep (fun e _ => Nat.zero_le _) hInv.bounds
        hInv.fb_lt (by omega) hfg
      exact ⟨⟨hspec.2.1, hspec.2.2.2⟩, hspec.2.2.1⟩
  · rw [if_neg hbump] at h
    have hoff : s.end_marker + ALIGNMENT_GET_ALIGN_BYTES s.end_marker align = off := by
      simpa using h
    constructor
    · constructor
      · omega
      · intro e he
        have h1 : entryEnd e ≤ chainEnd s.chain := le_chainEnd hInv.sep e he
        have h2 : e.offset ≤ entryEnd e := Nat.le_add_right _ _
        rw [← hInv.marker] at h1
        exact Or.inl ⟨by omega, by omega⟩
    · exact ⟨s.end_marker, hoff.symm⟩

/-- A failed allocation returns the state unchanged: the out-of-memory path
    of the C function returns before any mutation. -/
theorem alloc_none_eq {s : AllocState} {size align : Nat}
    (h : (gst_framebuffersink_video_memory_alloc s size align).1 = none) :
    (gst_framebuffersink_video_memory_alloc s size align).2 = s := by
  rw [alloc_cases] at h ⊢
  by_cases hbump : s.framebuffer_size <
      (s.end_marker + ALIGNMENT_GET_ALIGN_BYTES s.end_marker align + size) % wordSize
  · rw [if_pos hbump] at h ⊢
    cases hfg : findGap s.chain 0 size align with
    | none => rfl
    | some o => rw [hfg] at h; cases h
  · rw [if_neg hbump] at h
    cases h

/-- A successful allocation commits exactly the returned region. -/
theorem alloc_some_state {s : AllocState} {size align off : Nat}
    (h : (gst_framebuffersink_video_memory_alloc s size align).1 = some off) :
    (gst_framebuffersink_video_memory_alloc s size align).2 = commitAlloc s off size := by
  rw [alloc_cases] at h ⊢
  by_cases hbump : s.framebuffer_size <
      (s.end_marker + ALIGNMENT_GET_ALIGN_BYTES s.end_marker align + size) % wordSize
  · rw [if_pos hbump] at h ⊢
    cases hfg : findGap s.chain 0 size align with
    | none => rw [hfg] at h; cases h
    | some o =>
      rw [hfg] at h
      have ho : o = off := by simpa using h
      show commitAlloc s o size = commitAlloc s off size
      rw [ho]
  · rw [if_neg hbump] at h ⊢
    have ho : s.end_marker + ALIGNMENT_GET_ALIGN_BYTES s.end_marker align = off := by
      simpa using h
    rw [ho]

/-- Committing a fitting positive-size region preserves the allocator
    invariant. -/
theorem commitAlloc_inv {s : AllocState} {off size : Nat} (hInv : Inv s)
    (hpos : 0 < size) (hfit : FitsAt s off size) :
    Inv (commitAlloc s off size) := by
  have hfit2 : ∀ x ∈ s.chain,
      (x.offset ≤ off ∧ entryEnd x ≤ off) ∨ off + size ≤ x.offset := hfit.2
  refine ⟨?_, ?_, ?_, ?_, hInv.fb_lt⟩
  · exact insertChain_sep hInv.sep hpos hfit2
  · intro e he
    rcases mem_insertChain.mp he with he | rfl
    · exact hInv.bounds e he
    · exact hfit.1
  · show (if s.end_marker < off + size then off + size else s.end_marker) =
      chainEnd (insertChain s.chain ⟨off, size⟩)
    by_cases hin : ∃ x ∈ s.chain, (⟨off, size⟩ : ChainEntry).offset < x.offset
    · rcases hin with ⟨x, hx, hlt⟩
      rw [insertChain_chainEnd_inside hx hlt]
      have h1 : off + size ≤ x.offset := by
        rcases hfit2 x hx with ⟨h2, _⟩ | h2
        · exact absurd hlt (by simp at h2 ⊢; omega)
        · exact h2
      have h2 : entryEnd x ≤ chainEnd s.chain := le_chainEnd hInv.sep x hx
      have h3 : x.offset ≤ entryEnd x := Nat.le_add_right _ _
      rw [← hInv.marker] at h2
      rw [if_neg (by omega), hInv.marker]
    · push_neg at hin
      rw [insertChain_append fun x hx => not_lt.mpr (hin x hx),
        chainEnd_concat]
      show _ = off + size
      cases hc : s.chain with
      | nil =>
        rw [hInv.marker, hc, chainEnd_nil, if_pos (by omega)]
      | cons a t =>
        have hlast : (a :: t).getLast (by simp) ∈ s.chain := by
          rw [hc]; exact List.getLast_mem _
        have hoffle : ((a :: t).getLast (by simp)).offset ≤ off := by
          have := hin _ hlast; simp at this; omega
        have hendle : entryEnd ((a :: t).getLast (by simp)) ≤ off := by
          rcases hfit2 _ hlast with ⟨_, h2⟩ | h2
          · exact h2
          · have h3 : ((a :: t).getLast (by simp)).offset ≤
              entryEnd ((a :: t).getLast (by simp)) := Nat.le_add_right _ _
            omega
        have hce : chainEnd s.chain = entryEnd ((a :: t).getLast (by simp)) := by
          rw [hc]
          show optEnd (a :: t).getLast? = _
          rw [List.getLast?_eq_getLast (a :: t) (by simp)]
          rfl
        rw [hInv.marker, hce, if_pos (by omega)]
  · show s.total_allocated + size = ((insertChain s.chain ⟨off, size⟩).map ChainEntry.size).sum
    rw [insertChain_sum, ← hInv.total]

/-! Characterisation of the free path. -/

theorem lastEndD_cons (d : Nat) (a : ChainEntry) (c : List ChainEntry) :
    lastEndD d (a :: c) = lastEndD (entryEnd a) c := by
  cases c with
  | nil => rfl
  | cons b t =>
    unfold lastEndD
    rw [List.getLast?_cons_cons, List.getLast?_eq_getLast (b :: t) (by simp)]

theorem chainEnd_eq_lastEndD (c : List ChainEntry) : chainEnd c = lastEndD 0 c := by
  cases hc : c.getLast? <;> simp [chainEnd, lastEndD, hc, optEnd]

/-- When no entry matches, the free loop reports failure. -/
theorem freeLoop_no_match {addr size : Nat} {c : List ChainEntry}
    (h : ∀ e ∈ c, ¬(e.offset = addr ∧ e.size = size)) :
    ∀ prevE em, freeLoop addr size prevE c em = none := by
  induction c with
  | nil => intro prevE em; rfl
  | cons e rest ih =>
    intro prevE em
    unfold freeLoop
    rw [if_neg (h e (by simp)), ih fun x hx => h x (by simp [hx])]

/-- Decomposition produced by a successful free-loop search. -/
theorem freeLoop_some_spec {addr size : Nat} {c : List ChainEntry}
    {prevE : Option ChainEntry} {em : Nat} {res : List ChainEntry × Nat}
    (h : freeLoop addr size prevE c em = some res) :
    ∃ c1 e c2, c = c1 ++ e :: c2 ∧ res.1 = c1 ++ c2 ∧
      e.offset = addr ∧ e.size = size ∧
      res.2 = if c2 = [] then lastEndD (optEnd prevE) c1 else em := by
  induction c generalizing prevE res with
  | nil => cases h
  | cons e rest ih =>
    unfold freeLoop at h
    split at h
    · rename_i hm
      have hres : res = (rest, if rest = [] then optEnd prevE else em) := by
        simpa using h.symm
      refine ⟨[], e, rest, by simp, by simp [hres], hm.1, hm.2, ?_⟩
      simp [hres, lastEndD]
    · rename_i hm
      cases hrec : freeLoop addr size (some e) rest em with
      | none => rw [hrec] at h; cases h
      | some r =>
        rw [hrec] at h
        have hres : res = (e :: r.1, r.2) := by
          obtain ⟨rc, rem⟩ := r
          simpa using h.symm
        rcases ih hrec with ⟨c1, e1, c2, hdec, hr1, ho, hs, hr2⟩
        refine ⟨e :: c1, e1, c2, by simp [hdec], by simp [hres, hr1], ho, hs, ?_⟩
        rw [hres]
        show r.2 = _
        rw [hr2, lastEndD_cons]
        rfl

/-- Computation of the free loop when the matching entry is the last one. -/
theorem freeLoop_concat_match {addr size : Nat} {c1 : List ChainEntry}
    {e : ChainEntry} (hnm : ∀ x ∈ c1, ¬(x.offset = addr ∧ x.size = size))
    (hm : e.offset = addr ∧ e.size = size) :
    ∀ prevE em, freeLoop addr size prevE (c1 ++ [e]) em =
      some (c1, lastEndD (optEnd prevE) c1) := by
  induction c1 with
  | nil =>
    intro prevE em
    show freeLoop addr size prevE [e] em = _
    unfold freeLoop
    rw [if_pos hm]
    rfl
  | cons a t ih =>
    intro prevE em
    show freeLoop addr size prevE (a :: (t ++ [e])) em = _
    unfold freeLoop
    rw [if_neg (hnm a (by simp)), ih (fun x hx => hnm x (by simp [hx])) (some a) em]
    rw [lastEndD_cons]
    rfl

/-- Freeing a region whose address/size matches no live entry is detected and
    leaves the state unchanged. -/
theorem free_no_match {s : AllocState} {addr size : Nat}
    (h : ∀ e ∈ s.chain, ¬(e.offset = addr ∧ e.size = size)) :
    gst_framebuffersink_video_memory_free s addr size = (false, s) := by
  unfold gst_framebuffersink_video_memory_free
  rw [freeLoop_no_match h none s.end_marker]

/-- Freeing preserves the allocator invariant. -/
theorem free_inv {s : AllocState} {addr size : Nat} (hInv : Inv s) :
    Inv (gst_framebuffersink_video_memory_free s addr size).2 := by
  unfold gst_framebuffersink_video_memory_free
  cases hfl : freeLoop addr size none s.chain s.end_marker with
  | none => exact hInv
  | some res =>
    obtain ⟨rc, rem⟩ := res
    rcases freeLoop_some_spec hfl with ⟨c1, e, c2, hdec, hr1, ho, hs, hr2⟩
    simp only [] at hr1 hr2
    have hsub : List.Sublist (c1 ++ c2) s.chain := by
      rw [hdec]
      exact (List.sublist_cons_self e c2).append_left c1
    refine ⟨?_, ?_, ?_, ?_, hInv.fb_lt⟩
    · show ChainSep rc
      rw [hr1]
      exact hInv.sep.sublist hsub
    · show ∀ x ∈ rc, entryEnd x ≤ s.framebuffer_size
      intro x hx
      rw [hr1] at hx
      exact hInv.bounds x (hsub.mem hx)
    · show rem = chainEnd rc
      rw [hr1, hr2]
      by_cases hc2 : c2 = []
      · rw [if_pos hc2, hc2, List.append_nil, chainEnd_eq_lastEndD]
        rfl
      · rw [if_neg hc2, hInv.marker, hdec]
        cases c2 with
        | nil => exact absurd rfl hc2
        | cons b t =>
          have h1 : chainEnd (c1 ++ e :: b :: t) = chainEnd (e :: b :: t) := by
            simp [chainEnd, List.getLast?_eq_getLast (e :: b :: t) (by simp)]
          have h2 : chainEnd (c1 ++ b :: t) = chainEnd (b :: t) := by
            simp [chainEnd, List.getLast?_eq_getLast (b :: t) (by simp)]
          rw [h1, h2, chainEnd_cons e]
    · show s.total_allocated - size = (rc.map ChainEntry.size).sum
      rw [hr1]
      have h1 := hInv.total
      rw [hdec] at h1
      simp only [List.map_append, List.sum_append, List.map_cons, List.sum_cons] at h1 ⊢
      omega

/-! Invariant preservation over call sequences. -/

theorem init_inv (fb : Nat) (hfb : fb < wordSize) :
    Inv (gst_framebuffersink_video_memory_init fb) := by
  refine ⟨?_, ?_, rfl, rfl, hfb⟩
  · exact List.Pairwise.nil
  · intro e he; cases he

/-- A positive-size allocation preserves the allocator invariant. -/
theorem alloc_inv {s : AllocState} {size align : Nat} (hInv : Inv s)
    (hpos : 0 < size)
    (hnw : s.framebuffer_size + align + size < wordSize) :
    Inv (gst_framebuffersink_video_memory_alloc s size align).2 := by
  cases hres : (gst_framebuffersink_video_memory_alloc s size align).1 with
  | none => rw [alloc_none_eq hres]; exact hInv
  | some off =>
    rw [alloc_some_state hres]
    exact commitAlloc_inv hInv hpos (alloc_some_fits hInv hnw hres).1

theorem step_inv {s : AllocState} {op : Op} (hInv : Inv s)
    (hop : opPositive op = true)
    (hnw : opNoWrap s.framebuffer_size op = true) : Inv (step s op) := by
  cases op with
  | alloc size align =>
    exact alloc_inv hInv (by simpa [opPositive] using hop)
      (by simpa [opNoWrap] using hnw)
  | free addr size => exact free_inv hInv

/-- Neither call changes the arena size. -/
theorem step_fb (s : AllocState) (op : Op) :
    (step s op).framebuffer_size = s.framebuffer_size := by
  cases op with
  | alloc size align =>
    show (gst_framebuffersink_video_memory_alloc s size align).2.framebuffer_size = _
    cases hres : (gst_framebuffersink_video_memory_alloc s size align).1 with
    | none => rw [alloc_none_eq hres]
    | some off =>
      rw [alloc_some_state hres]
      rfl
  | free addr size =>
    show (gst_framebuffersink_video_memory_free s addr size).2.framebuffer_size = _
    unfold gst_framebuffersink_video_memory_free
    cases hfl : freeLoop addr size none s.chain s.end_marker with
    | none => rfl
    | some r =>
      obtain ⟨c2, em2⟩ := r
      rfl

theorem exec_inv {s : AllocState} {ops : List Op} (hInv : Inv s)
    (hops : allPositive ops = true)
    (hnws : allNoWrap s.framebuffer_size ops = true) : Inv (exec s ops) := by
  induction ops generalizing s with
  | nil => exact hInv
  | cons op rest ih =>
    have h1 : opPositive op = true ∧ rest.all opPositive = true := by
      simpa [allPositive] using hops
    have h2 : opNoWrap s.framebuffer_size op = true ∧
        rest.all (opNoWrap s.framebuffer_size) = true := by
      simpa [allNoWrap] using hnws
    refine ih (step_inv hInv h1.1 h2.1) (by simpa [allPositive] using h1.2) ?_
    show allNoWrap (step s op).framebuffer_size rest = true
    rw [step_fb]
    exact h2.2

/-- The internal invariant implies the claimed chain properties. -/
theorem inv_chainOk {s : AllocState} (hInv : Inv s) : ChainOk s := by
  constructor
  · exact hInv.sep.imp fun {a b} h =>
      ⟨Or.inr (Or.inr (Or.inl h)), le_trans (Nat.le_add_right _ _) h⟩
  · intro e he
    exact Or.inr (hInv.bounds e he)

/-! The spec-described algorithm agrees with the implementation. -/

/-- For a power-of-two alignment, the C macro round-up equals the
    mathematical round-up to a multiple of `align + 1`. -/
theorem specRoundUp_eq_pow2 {align k : Nat} (h : align + 1 = 2 ^ k) (offset : Nat) :
    specRoundUp offset align = offset + ALIGNMENT_GET_ALIGN_BYTES offset align := by
  have halign : align = 2 ^ k - 1 := by omega
  subst halign
  rw [agb_pow2]
  have hm : 0 < 2 ^ k := Nat.pos_pow_of_pos k (by decide)
  unfold specRoundUp
  rw [h]
  have hdm := Nat.div_add_mod offset (2 ^ k)
  have hmlt : offset % 2 ^ k < 2 ^ k := Nat.mod_lt _ hm
  rcases Nat.eq_zero_or_pos (offset % 2 ^ k) with hr | hr
  · have h3 : offset + (2 ^ k - 1) = (2 ^ k - 1) + 2 ^ k * (offset / 2 ^ k) := by omega
    rw [h3, Nat.add_mul_div_left _ _ hm, Nat.div_eq_of_lt (by omega), hr,
      Nat.sub_zero, Nat.mod_self, Nat.zero_add, Nat.mul_comm]
    omega
  · have h5 : offset + (2 ^ k - 1) =
        (offset % 2 ^ k - 1) + 2 ^ k * (offset / 2 ^ k + 1) := by
      rw [Nat.mul_add, Nat.mul_one]
      omega
    have h6 : (2 ^ k - offset % 2 ^ k) % 2 ^ k = 2 ^ k - offset % 2 ^ k :=
      Nat.mod_eq_of_lt (by omega)
    rw [h5, Nat.add_mul_div_left _ _ hm, Nat.div_eq_of_lt (by omega), h6,
      Nat.zero_add, Nat.add_mul, Nat.one_mul, Nat.mul_comm]
    omega

theorem tailEnd_cons (e : ChainEntry) (rest : List ChainEntry) (g : Nat) :
    tailEnd (e :: rest) g = tailEnd rest (entryEnd e) := by
  cases rest with
  | nil => simp [tailEnd, chainEnd, optEnd]
  | cons b t => simp [tailEnd, chainEnd_cons e]

theorem tailEnd_zero (c : List ChainEntry) : tailEnd c 0 = chainEnd c := by
  cases c <;> rfl

/-- When the bump candidate (equivalently, the final gap at EOF) does not fit,
    the spec-described gap scan and the implementation loop coincide. -/
theorem specScan_eq_findGap {fb size align k : Nat} {c : List ChainEntry} {g : Nat}
    (hpow : align + 1 = 2 ^ k)
    (hsep : ChainSep c)
    (hg : ∀ e ∈ c, g ≤ e.offset)
    (hb : ∀ e ∈ c, entryEnd e ≤ fb)
    (hfb : fb < wordSize)
    (hnw : align + size < wordSize)
    (hfail : fb < tailEnd c g + ALIGNMENT_GET_ALIGN_BYTES (tailEnd c g) align + size) :
    specScanGaps fb size align c g = findGap c g size align := by
  induction c generalizing g with
  | nil =>
    have hg2 : tailEnd ([] : List ChainEntry) g = g := rfl
    rw [hg2] at hfail
    show (if specRoundUp g align + size ≤ fb then some (specRoundUp g align) else none)
      = none
    rw [if_neg (by rw [specRoundUp_eq_pow2 hpow]; omega)]
  | cons e rest ih =>
    have hge : g ≤ e.offset := hg e (by simp)
    have heb : entryEnd e ≤ fb := hb e (by simp)
    have heo : e.offset ≤ entryEnd e := Nat.le_add_right _ _
    have hsp := List.pairwise_cons.mp hsep
    rw [tailEnd_cons] at hfail
    show (if specRoundUp g align + size ≤ e.offset then some (specRoundUp g align)
          else specScanGaps fb size align rest (entryEnd e)) = _
    unfold findGap
    simp only []
    have hab : ALIGNMENT_GET_ALIGN_BYTES g align + size < wordSize :=
      lt_of_le_of_lt (Nat.add_le_add_right (agb_le g align) size) hnw
    rw [wsub_eq hge (by omega), Nat.mod_eq_of_lt hab, specRoundUp_eq_pow2 hpow]
    by_cases hcond : g + ALIGNMENT_GET_ALIGN_BYTES g align + size ≤ e.offset
    · rw [if_pos (by omega), if_pos (by omega)]
    · rw [if_neg (by omega), if_neg (by omega)]
      exact ih hsp.2 (fun x hx => hsp.1 x hx) (fun x hx => hb x (by simp [hx])) hfail

/-- Under the allocator invariant, the spec-described algorithm computes
    exactly the implementation's result. -/
theorem specAlloc_eq_alloc {s : AllocState} {size align k : Nat} (hInv : Inv s)
    (hpow : align + 1 = 2 ^ k)
    (hnw : s.framebuffer_size + align + size < wordSize) :
    specAlloc s size align = (gst_framebuffersink_video_memory_alloc s size align).1 := by
  have hem : s.end_marker ≤ s.framebuffer_size := by
    rw [hInv.marker]
    exact chainEnd_le hInv.bounds
  have hagb := agb_le s.end_marker align
  have hsum : s.end_marker + ALIGNMENT_GET_ALIGN_BYTES s.end_marker align + size <
      wordSize := by omega
  rw [alloc_cases, Nat.mod_eq_of_lt hsum]
  unfold specAlloc
  rw [specRoundUp_eq_pow2 hpow]
  by_cases hbump : s.framebuffer_size <
      s.end_marker + ALIGNMENT_GET_ALIGN_BYTES s.end_marker align + size
  · rw [if_neg (by omega), if_pos hbump]
    have hfail : s.framebuffer_size < tailEnd s.chain 0 +
        ALIGNMENT_GET_ALIGN_BYTES (tailEnd s.chain 0) align + size := by
      rw [tailEnd_zero, ← hInv.marker]
      exact hbump
    rw [specScan_eq_findGap hpow hInv.sep (fun e _ => Nat.zero_le _) hInv.bounds
      hInv.fb_lt (by omega) hfail]
    cases hfg : findGap s.chain 0 size align <;> rfl
  · rw [if_pos (by omega), if_neg hbump]

/-! Behaviour of the batch-allocation loops of `set_caps`. -/

theorem allocBuffers_succ (a : AllocState) (size align n : Nat) :
    allocBuffers a size align (n + 1) =
      match gst_framebuffersink_video_memory_alloc a size align with
      | (none, a2) => (a2, [])
      | (some off, a2) =>
        ((allocBuffers a2 size align n).1, off :: (allocBuffers a2 size align n).2) := by
  rfl

theorem alloc_total_some {s : AllocState} {size align off : Nat}
    (h : (gst_framebuffersink_video_memory_alloc s size align).1 = some off) :
    (gst_framebuffersink_video_memory_alloc s size align).2.total_allocated =
      s.total_allocated + size := by
  rw [alloc_some_state h]
  rfl

theorem alloc_chain_mono {s : AllocState} {size align : Nat} {x : ChainEntry}
    (hx : x ∈ s.chain) :
    x ∈ (gst_framebuffersink_video_memory_alloc s size align).2.chain := by
  cases hres : (gst_framebuffersink_video_memory_alloc s size align).1 with
  | none => rw [alloc_none_eq hres]; exact hx
  | some off =>
    rw [alloc_some_state hres]
    exact mem_insertChain.mpr (Or.inl hx)

/-- The batch loop allocates at most the requested count and keeps every
    buffer it managed to allocate: the total allocated grows by exactly
    `size` per allocated buffer and nothing is freed. -/
theorem allocBuffers_spec (size align : Nat) :
    ∀ (n : Nat) (a : AllocState),
      (allocBuffers a size align n).2.length ≤ n ∧
      (allocBuffers a size align n).1.total_allocated =
        a.total_allocated + size * (allocBuffers a size align n).2.length := by
  intro n
  induction n with
  | zero => intro a; simp [allocBuffers]
  | succ n ih =>
    intro a
    rw [allocBuffers_succ]
    cases hres : gst_framebuffersink_video_memory_alloc a size align with
    | mk opt a2 =>
      cases opt with
      | none =>
        have h1 : (gst_framebuffersink_video_memory_alloc a size align).1 = none := by
          rw [hres]
        have h2 : a2 = a := by
          have h3 := alloc_none_eq h1
          rw [hres] at h3
          exact h3
        subst h2
        simp
      | some off =>
        have h1 : (gst_framebuffersink_video_memory_alloc a size align).1 = some off := by
          rw [hres]
        have htot : a2.total_allocated = a.total_allocated + size := by
          have h3 := alloc_total_some h1
          rw [hres] at h3
          exact h3
        have hrec := ih a2
        simp only [List.length_cons]
        refine ⟨by omega, ?_⟩
        show (allocBuffers a2 size align n).1.total_allocated = _
        rw [Nat.mul_succ]
        omega

/-- Chain membership is preserved across the whole batch loop. -/
theorem allocBuffers_chain_mono (size align : Nat) :
    ∀ (n : Nat) (a : AllocState) (x : ChainEntry), x ∈ a.chain →
      x ∈ (allocBuffers a size align n).1.chain := by
  intro n
  induction n with
  | zero => intro a x hx; simpa [allocBuffers] using hx
  | succ n ih =>
    intro a x hx
    rw [allocBuffers_succ]
    cases hres : gst_framebuffersink_video_memory_alloc a size align with
    | mk opt a2 =>
      have hx2 : x ∈ a2.chain := by
        have h4 := @alloc_chain_mono a size align x hx
        rw [hres] at h4
        exact h4
      cases opt with
      | none => exact hx2
      | some off => exact ih a2 x hx2

/-- Every buffer handed out by the batch loop is still recorded in the chain
    when the loop finishes. -/
theorem allocBuffers_mem (size align : Nat) :
    ∀ (n : Nat) (a : AllocState) (off : Nat),
      off ∈ (allocBuffers a size align n).2 →
      (⟨off, size⟩ : ChainEntry) ∈ (allocBuffers a size align n).1.chain := by
  intro n
  induction n with
  | zero => intro a off h; simp [allocBuffers] at h
  | succ n ih =>
    intro a off h
    rw [allocBuffers_succ] at h ⊢
    cases hres : gst_framebuffersink_video_memory_alloc a size align with
    | mk opt a2 =>
      rw [hres] at h
      cases opt with
      | none => simp at h
      | some o =>
        rcases List.mem_cons.mp h with rfl | h
        · have h1 : (gst_framebuffersink_video_memory_alloc a size align).1 = some off := by
            rw [hres]
          have h2 : (⟨off, size⟩ : ChainEntry) ∈ a2.chain := by
            have h3 := alloc_some_state h1
            rw [hres] at h3
            have h3b : a2 = commitAlloc a off size := h3
            rw [h3b]
            exact mem_insertChain.mpr (Or.inr rfl)
          exact allocBuffers_chain_mono size align n a2 ⟨off, size⟩ h2
        · exact ih a2 off h

/-! Claim theorems. -/

/-- C1 counterexample: the call sequence alloc(14,0), alloc(4,0), alloc(0,7),
    alloc(2,3) on a 20-byte arena never requests more than the remaining
    capacity (14 of 20, 4 of 6, 0 of 2, 2 of 2), yet after the fourth call
    the chain holds the overlapping live regions (14,4) and (16,2): the
    zero-size allocation is accepted and inserted out of order at offset 0,
    and the next gap scan wraps its unsigned gap-size subtraction, so the
    claimed invariant fails. -/
theorem C1_counterexample :
    capacityOk (gst_framebuffersink_video_memory_init 20)
        [Op.alloc 14 0, Op.alloc 4 0, Op.alloc 0 7, Op.alloc 2 3] = true ∧
      ¬ ChainOk (exec (gst_framebuffersink_video_memory_init 20)
        [Op.alloc 14 0, Op.alloc 4 0, Op.alloc 0 7, Op.alloc 2 3]) := by
  decide

/-- C1 (amended): for every finite sequence of allocate/free calls on a fresh
    arena in which no allocate request exceeds the remaining capacity for
    concurrently-live regions, every allocate request has positive size, and
    every allocate request satisfies framebuffer_size + align + size < 2^64
    (so the gsize bump sum end_marker + align_bytes + size cannot wrap;
    automatic for any physical arena and int alignment), at every point in
    the sequence the live regions are pairwise non-overlapping, each lies
    within [0, framebuffer_size), and the chain is sorted by increasing
    address.  (The positive-size proviso is forced by the counterexample
    below; the no-wrap proviso is forced by the gsize overflow of the bump
    check, which bump-accepts an out-of-bounds region on arenas close to
    2^64 bytes, for example alloc(8,0); alloc(2^64-32,0); free(0,8);
    alloc(24,0) on an arena of 2^64-8 bytes; the capacity hypothesis is
    retained from the claim.) -/
theorem C1_invariant_positive_sizes (fb : Nat) (ops : List Op)
    (hfb : fb < wordSize)
    (hpos : allPositive ops = true)
    (_hcap : capacityOk (gst_framebuffersink_video_memory_init fb) ops = true)
    (hnww : allNoWrap fb ops = true) :
    ∀ k ≤ ops.length,
      ChainOk (exec (gst_framebuffersink_video_memory_init fb) (ops.take k)) := by
  intro k _hk
  refine inv_chainOk (exec_inv (init_inv fb hfb) ?_ ?_)
  · exact List.all_eq_true.mpr fun x hx =>
      List.all_eq_true.mp hpos x (List.take_subset k ops hx)
  · exact List.all_eq_true.mpr fun x hx =>
      List.all_eq_true.mp hnww x (List.take_subset k ops hx)

/-- C1 witness: a concrete positive-size sequence satisfying the hypotheses. -/
theorem C1_invariant_positive_sizes_witness :
    (16 < wordSize ∧ allPositive [Op.alloc 4 3, Op.free 0 4] = true ∧
      capacityOk (gst_framebuffersink_video_memory_init 16)
        [Op.alloc 4 3, Op.free 0 4] = true ∧
      allNoWrap 16 [Op.alloc 4 3, Op.free 0 4] = true) ∧
    ∀ k ≤ ([Op.alloc 4 3, Op.free 0 4] : List Op).length,
      ChainOk (exec (gst_framebuffersink_video_memory_init 16)
        (([Op.alloc 4 3, Op.free 0 4] : List Op).take k)) :=
  ⟨⟨by decide, by decide, by decide, by decide⟩,
    C1_invariant_positive_sizes 16 [Op.alloc 4 3, Op.free 0 4]
      (by decide) (by decide) (by decide) (by decide)⟩

/-- C2 counterexample: on the well-formed (invariant-satisfying) state
    reached from a fresh gsize-representable arena of 2^64 - 8 bytes by
    alloc(8,0); alloc(2^64-32,0); free(0,8), the algorithm the spec
    describes rejects alloc(24,0) with out-of-memory (the candidate
    2^64-24 plus 24 exceeds the arena length, and no interior gap holds 24
    bytes), but the implementation's gsize bump sum
    end_marker + align_bytes + size wraps to 0, passes the bump check, and
    the call succeeds at offset 2^64-24 — a region that even ends past the
    arena.  (align = 0 is the byte-alignment bitmask, align + 1 = 2^0.) -/
theorem C2_counterexample :
    exec (gst_framebuffersink_video_memory_init (2 ^ 64 - 8))
        [Op.alloc 8 0, Op.alloc (2 ^ 64 - 32) 0, Op.free 0 8] =
      ⟨2 ^ 64 - 8, 2 ^ 64 - 24, 2 ^ 64 - 32, [⟨8, 2 ^ 64 - 32⟩]⟩ ∧
    Inv (⟨2 ^ 64 - 8, 2 ^ 64 - 24, 2 ^ 64 - 32, [⟨8, 2 ^ 64 - 32⟩]⟩ : AllocState) ∧
    specAlloc
        (⟨2 ^ 64 - 8, 2 ^ 64 - 24, 2 ^ 64 - 32, [⟨8, 2 ^ 64 - 32⟩]⟩ : AllocState)
        24 0 = none ∧
    (gst_framebuffersink_video_memory_alloc
        (⟨2 ^ 64 - 8, 2 ^ 64 - 24, 2 ^ 64 - 32, [⟨8, 2 ^ 64 - 32⟩]⟩ : AllocState)
        24 0).1 = some (2 ^ 64 - 24) := by
  decide

/-- C2 (amended): under the allocator invariant, with a power-of-two
    alignment mask and provided framebuffer_size + align + size < 2^64 (so
    the gsize bump sum cannot wrap; automatic for any physical arena and int
    alignment), the implementation of allocate follows exactly the algorithm
    the spec describes: accept the end-marker candidate rounded up to the
    alignment when it fits the arena; otherwise scan the region chain in
    increasing address order, rounding each gap start (the final gap at EOF
    coincides with the already-rejected bump candidate) and accepting the
    first fitting gap; fail with out-of-memory (NULL) when no gap fits. -/
theorem C2_alloc_follows_spec_algorithm {s : AllocState} {size align k : Nat}
    (hInv : Inv s) (hpow : align + 1 = 2 ^ k)
    (hnw : s.framebuffer_size + align + size < wordSize) :
    specAlloc s size align =
      (gst_framebuffersink_video_memory_alloc s size align).1 :=
  specAlloc_eq_alloc hInv hpow hnw

/-- C2 witness: the fresh 16-byte arena with a word-alignment mask. -/
theorem C2_alloc_follows_spec_algorithm_witness :
    specAlloc (gst_framebuffersink_video_memory_init 16) 4 3 =
      (gst_framebuffersink_video_memory_alloc
        (gst_framebuffersink_video_memory_init 16) 4 3).1 :=
  @C2_alloc_follows_spec_algorithm (gst_framebuffersink_video_memory_init 16) 4 3 2
    (init_inv 16 (by decide)) (by decide) (by decide)

/-- C3 counterexample: on a 20-byte arena, after alloc(14,0); alloc(4,0);
    alloc(0,7) — the zero-size allocation is accepted and inserted out of
    address order — the call alloc(2,3), whose alignment mask satisfies
    align + 1 = 4 = 2^2, succeeds at offset 16; but [16,18) overlaps the
    live region (14,4) = [14,18), refuting the claim that every successful
    allocation is disjoint from all existing live regions. -/
theorem C3_counterexample :
    (gst_framebuffersink_video_memory_alloc
        (exec (gst_framebuffersink_video_memory_init 20)
          [Op.alloc 14 0, Op.alloc 4 0, Op.alloc 0 7]) 2 3).1 = some 16 ∧
    (⟨14, 4⟩ : ChainEntry) ∈
      (exec (gst_framebuffersink_video_memory_init 20)
        [Op.alloc 14 0, Op.alloc 4 0, Op.alloc 0 7]).chain ∧
    ¬(16 + 2 ≤ (⟨14, 4⟩ : ChainEntry).offset ∨ entryEnd ⟨14, 4⟩ ≤ 16) := by
  decide

/-- C3 (amended): every successful allocate(size, align) with align an
    alignment bitmask (align + 1 a power of two), performed from a
    well-formed allocator state (non-overlapping sorted in-bounds chain with
    accurate end_marker, the invariant that positive-size usage maintains)
    with framebuffer_size + align + size < 2^64 (no gsize overflow;
    automatic for any physical arena and int alignment), returns an offset
    that is a multiple of align + 1, lies with its region inside the arena,
    and does not overlap any existing live region.  (The well-formedness
    proviso is forced by the counterexample: zero-size allocations corrupt
    the chain, after which a successful allocation can overlap a live
    region.) -/
theorem C3_alloc_aligned_in_bounds_disjoint {s : AllocState}
    {size align k off : Nat} (hInv : Inv s) (hpow : align + 1 = 2 ^ k)
    (hnw : s.framebuffer_size + align + size < wordSize)
    (h : (gst_framebuffersink_video_memory_alloc s size align).1 = some off) :
    off % (align + 1) = 0 ∧ off + size ≤ s.framebuffer_size ∧
      ∀ e ∈ s.chain, off + size ≤ e.offset ∨ entryEnd e ≤ off := by
  obtain ⟨hfit, x, hx⟩ := alloc_some_fits hInv hnw h
  refine ⟨?_, hfit.1, ?_⟩
  · have halign : align = 2 ^ k - 1 := by omega
    subst halign
    rw [hpow, hx]
    exact aligned_mod x k
  · intro e he
    rcases hfit.2 e he with ⟨_, h2⟩ | h1
    · exact Or.inr h2
    · exact Or.inl h1

/-- C3 witness: a successful word-aligned allocation on a fresh arena. -/
theorem C3_alloc_aligned_in_bounds_disjoint_witness :
    (gst_framebuffersink_video_memory_alloc
        (gst_framebuffersink_video_memory_init 16) 4 3).1 = some 0 ∧
    (0 % (3 + 1) = 0 ∧
      0 + 4 ≤ (gst_framebuffersink_video_memory_init 16).framebuffer_size ∧
      ∀ e ∈ (gst_framebuffersink_video_memory_init 16).chain,
        0 + 4 ≤ e.offset ∨ entryEnd e ≤ 0) :=
  ⟨by decide,
    @C3_alloc_aligned_in_bounds_disjoint (gst_framebuffersink_video_memory_init 16)
      4 3 2 0 (init_inv 16 (by decide)) (by decide) (by decide) (by decide)⟩

/-- C4: for every allocator state, freeing an (address, size) pair that
    matches no live region reports the error (the false flag is the path
    where the C code logs "video_memory_free failed") and is otherwise a
    no-op: chain, end_marker and total_allocated are all unchanged. -/
theorem C4_free_mismatch_noop {s : AllocState} {addr size : Nat}
    (h : ∀ e ∈ s.chain, ¬(e.offset = addr ∧ e.size = size)) :
    gst_framebuffersink_video_memory_free s addr size = (false, s) :=
  free_no_match h

/-- C4 witness: freeing a mismatched pair from a one-region state. -/
theorem C4_free_mismatch_noop_witness :
    (∀ e ∈ (⟨16, 4, 4, [⟨0, 4⟩]⟩ : AllocState).chain,
        ¬(e.offset = 1 ∧ e.size = 2)) ∧
      gst_framebuffersink_video_memory_free (⟨16, 4, 4, [⟨0, 4⟩]⟩ : AllocState) 1 2 =
        (false, (⟨16, 4, 4, [⟨0, 4⟩]⟩ : AllocState)) :=
  ⟨by decide, C4_free_mismatch_noop (by decide)⟩

/-- C5 counterexample: a batch build of 2 screen buffers of size 2 in a
    3-byte arena fails at the second allocation, but the loop keeps the
    first buffer allocated and just truncates the count to 1:
    bytes_available after the failed build is 1, not the prior 3, refuting
    the all-or-nothing claim. -/
theorem C5_counterexample :
    (allocBuffers (gst_framebuffersink_video_memory_init 3) 2 0 2).2.length < 2 ∧
      gst_framebuffersink_video_memory_get_available
          (allocBuffers (gst_framebuffersink_video_memory_init 3) 2 0 2).1 ≠
        gst_framebuffersink_video_memory_get_available
          (gst_framebuffersink_video_memory_init 3) := by
  decide

/-- C5 (amended): when a batch allocation of a generation fails partway, the
    build does not fail as a whole and nothing is freed: the buffer count is
    truncated to the number of successful allocations, every allocated
    buffer stays live in the chain, and total_allocated grows by exactly
    size bytes per kept buffer. -/
theorem C5_partial_build_truncates (a : AllocState) (size align n : Nat) :
    (allocBuffers a size align n).2.length ≤ n ∧
      (allocBuffers a size align n).1.total_allocated =
        a.total_allocated + size * (allocBuffers a size align n).2.length ∧
      ∀ off ∈ (allocBuffers a size align n).2,
        (⟨off, size⟩ : ChainEntry) ∈ (allocBuffers a size align n).1.chain :=
  ⟨(allocBuffers_spec size align n a).1, (allocBuffers_spec size align n a).2,
    fun off h => allocBuffers_mem size align n a off h⟩

/-- C6: announcing the same geometry twice in a row is idempotent: when the
    caps parse to a video info equal to the currently configured one,
    set_caps returns TRUE immediately with the sink state untouched — so the
    pool is not rebuilt, no video-memory allocation or free happens, and
    bytes_available is unchanged. -/
theorem C6_set_caps_same_caps_noop (st : SinkState) :
    set_caps_head st (some st.info) = .ret st true := by
  simp [set_caps_head]

/-- C7 counterexample: with buffer-pool mode enabled, matching width, 10
    framebuffers available and every pool build failing, the reconfigure
    section attempts the build exactly once, at count 10, and falls back to
    non-pool mode; no retry at the next-smaller count 9 (which is ≥ 2)
    happens anywhere, refuting the retry-with-smaller-counts claim. -/
theorem C7_counterexample : ¬ RetriesNextSmaller := by
  intro h
  have h2 := h (fun _ => false) ⟨true, true, 10, 0, false, 0⟩
    ⟨false, true, 10, 0, false, 3⟩ 10 [] (by decide) rfl (by decide)
  exact absurd h2 (by decide)

/-- C7 (amended): when the pool build fails at the computed buffer count
    (available when at least 2 framebuffers fit), the controller does not
    retry at any smaller count: it disables buffer-pool mode and falls
    through once to the non-pool page-flip path (where frames are copied
    from producer system memory); and when fewer than 2 framebuffers are
    available, buffer-pool mode is disabled before any build is attempted
    (the attempt list is empty). -/
theorem C7_build_failure_disables_pool (buildOk : Nat → Bool) (st : ReconfigState)
    (h1 : st.use_buffer_pool = true) (h2 : st.width_ok = true) :
    (2 ≤ st.max_framebuffers →
      buildOk (computeNu (reconfigureChecks st)).nu_framebuffers_used = false →
      ∃ st2, reconfigure buildOk st =
          .nonPoolMode st2 [(computeNu (reconfigureChecks st)).nu_framebuffers_used] ∧
        st2.use_buffer_pool = false) ∧
    (st.max_framebuffers < 2 →
      ∃ st2, reconfigure buildOk st = .nonPoolMode st2 [] ∧
        st2.use_buffer_pool = false) := by
  constructor
  · intro h3 hfail
    have hubp : (computeNu (reconfigureChecks st)).use_buffer_pool = true := by
      unfold computeNu reconfigureChecks
      simp [h1, h2, h3]
    refine ⟨computeNu (reconfigureChecks
      { computeNu (reconfigureChecks st) with use_buffer_pool := false }), ?_, ?_⟩
    · unfold reconfigure
      simp only [hubp, hfail]
      rfl
    · unfold computeNu reconfigureChecks
      simp only [Bool.false_and]
      split <;> rfl
  · intro h3
    have hubp : (computeNu (reconfigureChecks st)).use_buffer_pool = false := by
      have hd : decide (2 ≤ st.max_framebuffers) = false := by
        simp [Nat.not_le.mpr h3]
      unfold computeNu reconfigureChecks
      simp [hd, Nat.not_le.mpr h3]
    refine ⟨computeNu (reconfigureChecks st), ?_, hubp⟩
    unfold reconfigure
    simp only [hubp]
    rfl

/-- C7 witness: the counterexample configuration (10 framebuffers, failing
    build) exercises the no-retry branch, and a 1-framebuffer configuration
    exercises the below-2 branch. -/
theorem C7_build_failure_disables_pool_witness :
    ((⟨true, true, 10, 0, false, 0⟩ : ReconfigState).use_buffer_pool = true ∧
      (⟨true, true, 10, 0, false, 0⟩ : ReconfigState).width_ok = true ∧
      2 ≤ (⟨true, true, 10, 0, false, 0⟩ : ReconfigState).max_framebuffers ∧
      (fun _ => false : Nat → Bool)
        (computeNu (reconfigureChecks
          (⟨true, true, 10, 0, false, 0⟩ : ReconfigState))).nu_framebuffers_used
        = false ∧
      (⟨true, true, 1, 0, false, 5⟩ : ReconfigState).max_framebuffers < 2) ∧
    (∃ st2, reconfigure (fun _ => false)
          (⟨true, true, 10, 0, false, 0⟩ : ReconfigState) =
        .nonPoolMode st2
          [(computeNu (reconfigureChecks
            (⟨true, true, 10, 0, false, 0⟩ : ReconfigState))).nu_framebuffers_used] ∧
      st2.use_buffer_pool = false) ∧
    (∃ st2, reconfigure (fun _ => false)
          (⟨true, true, 1, 0, false, 5⟩ : ReconfigState) =
        .nonPoolMode st2 [] ∧ st2.use_buffer_pool = false) :=
  ⟨⟨rfl, rfl, by decide, rfl, by decide⟩,
    (C7_build_failure_disables_pool (fun _ => false) ⟨true, true, 10, 0, false, 0⟩
      rfl rfl).1 (by decide) rfl,
    (C7_build_failure_disables_pool (fun _ => false) ⟨true, true, 1, 0, false, 5⟩
      rfl rfl).2 (by decide)⟩

/-- C8: whenever free removes the last (highest-address) entry of the sorted
    chain — the first matching entry is the final one — end_marker is
    retracted to the end offset of the new highest remaining region, or to 0
    if no region remains (chainEnd of the remaining chain). -/
theorem C8_free_last_retracts_end_marker {s : AllocState} {c : List ChainEntry}
    {e : ChainEntry} {addr size : Nat}
    (hchain : s.chain = c ++ [e])
    (hnm : ∀ x ∈ c, ¬(x.offset = addr ∧ x.size = size))
    (hm : e.offset = addr ∧ e.size = size) :
    gst_framebuffersink_video_memory_free s addr size =
      (true,
        { s with
          chain := c
          end_marker := chainEnd c
          total_allocated := s.total_allocated - size }) := by
  unfold gst_framebuffersink_video_memory_free
  rw [hchain, freeLoop_concat_match hnm hm none s.end_marker, chainEnd_eq_lastEndD]
  rfl

/-- C8 witness: freeing the highest region (8,2) of a two-region chain
    retracts end_marker from 10 to the end of (0,4). -/
theorem C8_free_last_retracts_end_marker_witness :
    ((⟨16, 10, 6, [⟨0, 4⟩, ⟨8, 2⟩]⟩ : AllocState).chain =
        [(⟨0, 4⟩ : ChainEntry)] ++ [⟨8, 2⟩] ∧
      (∀ x ∈ [(⟨0, 4⟩ : ChainEntry)], ¬(x.offset = 8 ∧ x.size = 2)) ∧
      ((⟨8, 2⟩ : ChainEntry).offset = 8 ∧ (⟨8, 2⟩ : ChainEntry).size = 2)) ∧
    gst_framebuffersink_video_memory_free
        (⟨16, 10, 6, [⟨0, 4⟩, ⟨8, 2⟩]⟩ : AllocState) 8 2 =
      (true,
        { (⟨16, 10, 6, [⟨0, 4⟩, ⟨8, 2⟩]⟩ : AllocState) with
          chain := [⟨0, 4⟩]
          end_marker := chainEnd [⟨0, 4⟩]
          total_allocated := (⟨16, 10, 6, [⟨0, 4⟩, ⟨8, 2⟩]⟩ : AllocState).total_allocated - 2 }) :=
  ⟨⟨rfl, by decide, by decide⟩,
    C8_free_last_retracts_end_marker rfl (by decide) (by decide)⟩

/-- C9 counterexample: a zero-size allocation on a fresh 16-byte arena is not
    rejected: alloc(0,0) succeeds with offset 0 and creates a zero-size
    region entry in the chain. -/
theorem C9_counterexample :
    gst_framebuffersink_video_memory_alloc
        (gst_framebuffersink_video_memory_init 16) 0 0 =
      (some 0, ⟨16, 0, 0, [⟨0, 0⟩]⟩) := by
  decide

/-- C9 (amended): a zero-size allocation is not rejected: whenever the
    rounded-up end-marker candidate fits the arena (always on a fresh
    arena), alloc(0, align) succeeds at that offset and records a zero-size
    region in the chain. -/
theorem C9_zero_size_alloc_accepted (s : AllocState) (align : Nat)
    (h : s.end_marker + ALIGNMENT_GET_ALIGN_BYTES s.end_marker align ≤
      s.framebuffer_size) :
    (gst_framebuffersink_video_memory_alloc s 0 align).1 =
        some (s.end_marker + ALIGNMENT_GET_ALIGN_BYTES s.end_marker align) ∧
      (⟨s.end_marker + ALIGNMENT_GET_ALIGN_BYTES s.end_marker align, 0⟩ : ChainEntry) ∈
        (gst_framebuffersink_video_memory_alloc s 0 align).2.chain := by
  have hbump : ¬ (s.framebuffer_size <
      (s.end_marker + ALIGNMENT_GET_ALIGN_BYTES s.end_marker align + 0) %
        wordSize) := by
    have hle := Nat.mod_le
      (s.end_marker + ALIGNMENT_GET_ALIGN_BYTES s.end_marker align + 0) wordSize
    omega
  rw [alloc_cases, if_neg hbump]
  exact ⟨rfl, mem_insertChain.mpr (Or.inr rfl)⟩

/-- C9 witness: the fresh 16-byte arena accepts alloc(0,0). -/
theorem C9_zero_size_alloc_accepted_witness :
    ((gst_framebuffersink_video_memory_init 16).end_marker +
        ALIGNMENT_GET_ALIGN_BYTES
          (gst_framebuffersink_video_memory_init 16).end_marker 0 ≤
      (gst_framebuffersink_video_memory_init 16).framebuffer_size) ∧
    ((gst_framebuffersink_video_memory_alloc
          (gst_framebuffersink_video_memory_init 16) 0 0).1 =
        some ((gst_framebuffersink_video_memory_init 16).end_marker +
          ALIGNMENT_GET_ALIGN_BYTES
            (gst_framebuffersink_video_memory_init 16).end_marker 0) ∧
      (⟨(gst_framebuffersink_video_memory_init 16).end_marker +
          ALIGNMENT_GET_ALIGN_BYTES
            (gst_framebuffersink_video_memory_init 16).end_marker 0, 0⟩ : ChainEntry) ∈
        (gst_framebuffersink_video_memory_alloc
          (gst_framebuffersink_video_memory_init 16) 0 0).2.chain) :=
  ⟨by decide, C9_zero_size_alloc_accepted (gst_framebuffersink_video_memory_init 16) 0
    (by decide)⟩

/-- C10: every allocation that fails with out-of-memory (returns NULL)
    leaves the allocator state completely unchanged: no chain entry is added
    or removed and end_marker and total_allocated retain their prior
    values. -/
theorem C10_failed_alloc_state_unchanged {s : AllocState} {size align : Nat}
    (h : (gst_framebuffersink_video_memory_alloc s size align).1 = none) :
    (gst_framebuffersink_video_memory_alloc s size align).2 = s :=
  alloc_none_eq h

/-- C10 witness: an 8-byte request on a fresh 4-byte arena fails and the
    state is unchanged. -/
theorem C10_failed_alloc_state_unchanged_witness :
    (gst_framebuffersink_video_memory_alloc
        (gst_framebuffersink_video_memory_init 4) 8 0).1 = none ∧
      (gst_framebuffersink_video_memory_alloc
          (gst_framebuffersink_video_memory_init 4) 8 0).2 =
        gst_framebuffersink_video_memory_init 4 :=
  ⟨by decide, C10_failed_alloc_state_unchanged (by decide)⟩

end GstFramebufferSink
